import Mathlib

/-!
JPEG bit-depth scanner (Dicom.Jpeg/JpegHelper.h) embedded in Lean.

`ScanJpegForBitDepthInternal` walks the marker stream of a JPEG byte
sequence and returns the precision byte of the first start-of-frame
(SOF) segment it meets.  `ScanHeaderForBitDepth` wraps it, retrying
with an external fallback codec (`Jpeg8Codec::ScanHeaderForPrecision`)
on any failure.

Embedding: a byte is a `Nat` (< 256 in real streams), the memory
stream is a `List Nat`, and the `MemoryStream` cursor is an explicit
position argument.  Reads return `Option`; a `none` stands for the
`EndOfStreamException` thrown by `BinaryReader` when it runs off the
end, and thrown exceptions are `Except.error` values.
-/

namespace JpegHelper

/-- Failure modes of the internal scanner: the explicit JPEG-error
throw of the default branch, the no-SOF-found throw after the loop,
and an `EndOfStreamException` raised by a read past the end. -/
inductive ScanError where
  | badMarker
  | sofNotFound
  | truncated
deriving DecidableEq

/-- Marker values of the two SOF `case` groups (lines 42-50 and 54-61
of JpegHelper.h): `0xffc0`-`0xffc3`, `0xffc5`-`0xffc7`,
`0xffc9`-`0xffcb`, `0xffcd`-`0xffcf`. -/
def isSOF (m : Nat) : Prop :=
  (0xffc0 ≤ m ∧ m ≤ 0xffc3) ∨ (0xffc5 ≤ m ∧ m ≤ 0xffc7) ∨
  (0xffc9 ≤ m ∧ m ≤ 0xffcb) ∨ (0xffcd ≤ m ∧ m ≤ 0xffcf)

instance (m : Nat) : Decidable (isSOF m) := by unfold isSOF; infer_instance

/-- Marker values whose 16-bit big-endian segment length (inclusive of
its own two bytes) is read and skipped: the JPEG-extension marker
`0xffc8` (line 51), DHT `0xffc4` and DAC `0xffcc` (lines 62-64), and
the contiguous run SOS, DQT, DNL, DRI, DHP, EXP, APP0-APP15,
JPG0-JPG13, COM: `0xffda`-`0xfffe` (lines 77-114). -/
def isLengthSkip (m : Nat) : Prop :=
  m = 0xffc8 ∨ m = 0xffc4 ∨ m = 0xffcc ∨ (0xffda ≤ m ∧ m ≤ 0xfffe)

instance (m : Nat) : Decidable (isLengthSkip m) := by
  unfold isLengthSkip; infer_instance

/-- Zero-payload markers handled by an empty `case` fallthrough:
RST0-RST7, SOI, EOI (`0xffd0`-`0xffd9`, lines 66-76) and TEM
(`0xff01`, line 116). -/
def isZeroPayload (m : Nat) : Prop :=
  (0xffd0 ≤ m ∧ m ≤ 0xffd9) ∨ m = 0xff01

instance (m : Nat) : Decidable (isZeroPayload m) := by
  unfold isZeroPayload; infer_instance

/-- `BinaryReader::ReadByte` at a given cursor position: one byte, or
`EndOfStreamException` (`none`) when the position is past the end. -/
def readByteAt (data : List Nat) (pos : Nat) : Option Nat :=
  if pos < data.length then some (data.getD pos 0) else none

/-- `EndianBinaryReader(Big)::ReadUInt16` at a given cursor position:
two bytes combined big-endian, or `EndOfStreamException` (`none`) when
fewer than two bytes remain. -/
def readUInt16 (data : List Nat) (pos : Nat) : Option Nat :=
  if pos + 1 < data.length then
    some (data.getD pos 0 * 256 + data.getD (pos + 1) 0)
  else none

/-- The `while (ms->Position < length)` loop of
`ScanJpegForBitDepthInternal` (lines 39-127), started at cursor
position `pos`.

Per iteration: read a 16-bit big-endian marker (cursor moves to
`pos + 2`); SOF markers seek 2 further bytes (the frame-header length
field) and return the byte at `pos + 4` as bit depth; length-prefixed
markers read the segment length at `pos + 2` and seek `length - 2`
past it, i.e. to `pos + 4 + (seglen - 2) = pos + 2 + seglen` (note the
C++ computes `ReadUInt16() - 2` in signed `int` arithmetic, so a
declared length below 2 seeks backward); zero-payload markers just
continue at `pos + 2`; any other marker value reads the next two raw
bytes and continues at `pos + 4` when they are `0xff` followed by a
byte in `(0x02, 0xbf]`, else throws the JPEG-syntax
`DicomCodecException`.  A loop exit without SOF throws the
no-SOF-marker `DicomCodecException`. -/
def scanFrom (data : List Nat) (pos : Nat) : Except ScanError Nat :=
  if _hlt : pos < data.length then
    match readUInt16 data pos with
    | none => .error .truncated
    | some marker =>
      if isSOF marker then
        match readByteAt data (pos + 4) with
        | none => .error .truncated
        | some b => .ok b
      else if isLengthSkip marker then
        match readUInt16 data (pos + 2) with
        | none => .error .truncated
        | some seglen => scanFrom data (pos + 2 + seglen)
      else if isZeroPayload marker then
        scanFrom data (pos + 2)
      else
        match readByteAt data (pos + 2), readByteAt data (pos + 3) with
        | some b1, some b2 =>
          if b1 = 0xff ∧ 2 < b2 ∧ b2 ≤ 0xbf then scanFrom data (pos + 4)
          else .error .badMarker
        | _, _ => .error .truncated
  else .error .sofNotFound
termination_by data.length - pos
decreasing_by all_goals omega

/-- `ScanJpegForBitDepthInternal` (lines 33-128): scan the first
pixel-data fragment from the start of the stream. -/
def ScanJpegForBitDepthInternal (data : List Nat) : Except ScanError Nat :=
  scanFrom data 0

/-- `ScanHeaderForBitDepth` (lines 20-29): try the internal scanner;
on any exception fall back to `Jpeg8Codec::ScanHeaderForPrecision` on
the original pixel data.  Modelled from the spec: the fallback codec
lives outside this header (JpegCodec.h) and is a black-box
"alternate, independent codec-level detector", so it is an abstract
function argument applied to the untouched pixel-data bytes. -/
def ScanHeaderForBitDepth (fallback : List Nat → Except ScanError Nat)
    (data : List Nat) : Except ScanError Nat :=
  match ScanJpegForBitDepthInternal data with
  | .ok d => .ok d
  | .error _ => fallback data

/-- How many times `ScanHeaderForBitDepth` invokes the fallback
detector: zero when the internal scanner returns, one when the
`catch (...)` handler fires (lines 24-28). -/
def fallbackInvocations (data : List Nat) : Nat :=
  match ScanJpegForBitDepthInternal data with
  | .ok _ => 0
  | .error _ => 1

/-! ### Basic facts about the marker classes and the readers -/

lemma not_isSOF_of_isLengthSkip {m : Nat} (h : isLengthSkip m) : ¬ isSOF m := by
  unfold isLengthSkip at h; unfold isSOF; omega

lemma not_isSOF_of_isZeroPayload {m : Nat} (h : isZeroPayload m) : ¬ isSOF m := by
  unfold isZeroPayload at h; unfold isSOF; omega

lemma not_isLengthSkip_of_isZeroPayload {m : Nat} (h : isZeroPayload m) :
    ¬ isLengthSkip m := by
  unfold isZeroPayload at h; unfold isLengthSkip; omega

lemma readUInt16_pos_lt {data : List Nat} {pos m : Nat}
    (hm : readUInt16 data pos = some m) : pos + 1 < data.length := by
  by_contra hc
  simp [readUInt16, hc] at hm

/-! ### One-iteration unfoldings of the scan loop, per branch -/

/-- Loop exit (line 127): cursor at or past the end, no SOF was met. -/
lemma scanFrom_exhausted (data : List Nat) (pos : Nat)
    (h : data.length ≤ pos) : scanFrom data pos = .error .sofNotFound := by
  rw [scanFrom]
  simp [Nat.not_lt.mpr h]

/-- SOF branch (lines 42-50, 54-61): seek 2, read the precision byte,
return it. -/
lemma scanFrom_sof {data : List Nat} {pos m : Nat}
    (hm : readUInt16 data pos = some m) (hsof : isSOF m)
    (h4 : pos + 4 < data.length) :
    scanFrom data pos = .ok (data.getD (pos + 4) 0) := by
  have hlt : pos < data.length := by have := readUInt16_pos_lt hm; omega
  rw [scanFrom]
  simp [hlt, hm, hsof, readByteAt, h4]

/-- SOF branch with the precision byte missing: `ReadByte` throws
`EndOfStreamException`. -/
lemma scanFrom_sof_truncated {data : List Nat} {pos m : Nat}
    (hm : readUInt16 data pos = some m) (hsof : isSOF m)
    (h4 : data.length ≤ pos + 4) :
    scanFrom data pos = .error .truncated := by
  have hlt : pos < data.length := by have := readUInt16_pos_lt hm; omega
  rw [scanFrom]
  simp [hlt, hm, hsof, readByteAt, Nat.not_lt.mpr h4]

/-- Length-prefixed branch (lines 51-53, 62-65, 77-115): read the
segment length and seek `seglen - 2` past it, landing the cursor at
`pos + 4 + (seglen - 2) = pos + 2 + seglen` (signed arithmetic). -/
lemma scanFrom_lengthSkip {data : List Nat} {pos m seglen : Nat}
    (hm : readUInt16 data pos = some m) (hskip : isLengthSkip m)
    (hlen : readUInt16 data (pos + 2) = some seglen) :
    scanFrom data pos = scanFrom data (pos + 2 + seglen) := by
  have hlt : pos < data.length := by have := readUInt16_pos_lt hm; omega
  rw [scanFrom]
  simp [hlt, hm, hskip, not_isSOF_of_isLengthSkip hskip, hlen]

/-- Zero-payload branch (lines 66-76, 116-117): nothing read beyond
the marker, continue at `pos + 2`. -/
lemma scanFrom_zeroPayload {data : List Nat} {pos m : Nat}
    (hm : readUInt16 data pos = some m) (hzp : isZeroPayload m) :
    scanFrom data pos = scanFrom data (pos + 2) := by
  have hlt : pos < data.length := by have := readUInt16_pos_lt hm; omega
  rw [scanFrom]
  simp [hlt, hm, hzp, not_isSOF_of_isZeroPayload hzp,
    not_isLengthSkip_of_isZeroPayload hzp]

/-- Default branch (lines 118-124) with both follow-up bytes present:
continue at `pos + 4` exactly when they are `0xff` and a byte in
`(0x02, 0xbf]`, else throw the JPEG-syntax exception. -/
lemma scanFrom_default {data : List Nat} {pos m b1 b2 : Nat}
    (hm : readUInt16 data pos = some m) (hsof : ¬ isSOF m)
    (hskip : ¬ isLengthSkip m) (hzp : ¬ isZeroPayload m)
    (hb1 : readByteAt data (pos + 2) = some b1)
    (hb2 : readByteAt data (pos + 3) = some b2) :
    scanFrom data pos =
      if b1 = 0xff ∧ 2 < b2 ∧ b2 ≤ 0xbf then scanFrom data (pos + 4)
      else .error .badMarker := by
  have hlt : pos < data.length := by have := readUInt16_pos_lt hm; omega
  rw [scanFrom]
  simp [hlt, hm, hsof, hskip, hzp, hb1, hb2]

/-- Default branch with the second follow-up byte missing: `ReadByte`
throws `EndOfStreamException`. -/
lemma scanFrom_default_truncated {data : List Nat} {pos m : Nat}
    (hm : readUInt16 data pos = some m) (hsof : ¬ isSOF m)
    (hskip : ¬ isLengthSkip m) (hzp : ¬ isZeroPayload m)
    (hb2 : readByteAt data (pos + 3) = none) :
    scanFrom data pos = .error .truncated := by
  have hlt : pos < data.length := by have := readUInt16_pos_lt hm; omega
  rw [scanFrom]
  simp [hlt, hm, hsof, hskip, hzp, hb2]

/-- Marker read failing inside the loop: fewer than two bytes remain
but the loop condition still held. -/
lemma scanFrom_marker_truncated {data : List Nat} {pos : Nat}
    (hlt : pos < data.length) (hm : readUInt16 data pos = none) :
    scanFrom data pos = .error .truncated := by
  rw [scanFrom]
  simp [hlt, hm]

/-- Length-prefixed branch with the segment length missing:
`ReadUInt16` throws `EndOfStreamException`. -/
lemma scanFrom_lengthSkip_truncated {data : List Nat} {pos m : Nat}
    (hm : readUInt16 data pos = some m) (hskip : isLengthSkip m)
    (hlen : readUInt16 data (pos + 2) = none) :
    scanFrom data pos = .error .truncated := by
  have hlt : pos < data.length := by have := readUInt16_pos_lt hm; omega
  rw [scanFrom]
  simp [hlt, hm, hskip, not_isSOF_of_isLengthSkip hskip, hlen]

/-! ### The scan only looks at the stream from the cursor onward -/

lemma readByteAt_append (a b : List Nat) (k : Nat) :
    readByteAt (a ++ b) (a.length + k) = readByteAt b k := by
  simp only [readByteAt, List.length_append]
  by_cases h : k < b.length
  · have e : a.length + k - a.length = k := by omega
    rw [if_pos (by omega), if_pos h,
      List.getD_append_right a b 0 _ (by omega), e]
  · rw [if_neg (by omega), if_neg h]

lemma readUInt16_append (a b : List Nat) (k : Nat) :
    readUInt16 (a ++ b) (a.length + k) = readUInt16 b k := by
  simp only [readUInt16, List.length_append]
  by_cases h : k + 1 < b.length
  · have e1 : a.length + k - a.length = k := by omega
    have e2 : a.length + k + 1 - a.length = k + 1 := by omega
    rw [if_pos (by omega), if_pos h,
      List.getD_append_right a b 0 _ (by omega),
      List.getD_append_right a b 0 _ (by omega), e1, e2]
  · rw [if_neg (by omega), if_neg h]

/-- Scanning `a ++ b` from a cursor already past `a` behaves exactly
like scanning `b` alone: the loop never seeks backward across the
iteration boundary, so the prefix is dead.  Stated with an explicit
bound `n` on the remaining bytes for the induction. -/
lemma scanFrom_append (a b : List Nat) :
    ∀ n k, b.length - k ≤ n →
      scanFrom (a ++ b) (a.length + k) = scanFrom b k := by
  intro n
  induction n with
  | zero =>
    intro k hk
    rw [scanFrom_exhausted (a ++ b) _ (by rw [List.length_append]; omega),
      scanFrom_exhausted b k (by omega)]
  | succ n ih =>
    intro k hk
    by_cases hkb : k < b.length
    · have eadd : ∀ c, a.length + k + c = a.length + (k + c) := by omega
      cases hm : readUInt16 b k with
      | none =>
        have hm2 : readUInt16 (a ++ b) (a.length + k) = none := by
          rw [readUInt16_append]; exact hm
        rw [scanFrom_marker_truncated (by rw [List.length_append]; omega) hm2,
          scanFrom_marker_truncated hkb hm]
      | some m =>
        have hm2 : readUInt16 (a ++ b) (a.length + k) = some m := by
          rw [readUInt16_append]; exact hm
        by_cases hsof : isSOF m
        · by_cases h4 : k + 4 < b.length
          · rw [scanFrom_sof hm2 hsof (by rw [List.length_append]; omega),
              scanFrom_sof hm hsof h4]
            have e : a.length + k + 4 - a.length = k + 4 := by omega
            rw [eadd 4, List.getD_append_right a b 0 _ (by omega)]
            simp
          · rw [scanFrom_sof_truncated hm2 hsof (by rw [List.length_append]; omega),
              scanFrom_sof_truncated hm hsof (by omega)]
        · by_cases hskip : isLengthSkip m
          · cases hlen : readUInt16 b (k + 2) with
            | none =>
              have hlen2 : readUInt16 (a ++ b) (a.length + k + 2) = none := by
                rw [eadd 2, readUInt16_append]; exact hlen
              rw [scanFrom_lengthSkip_truncated hm2 hskip hlen2,
                scanFrom_lengthSkip_truncated hm hskip hlen]
            | some seglen =>
              have hlen2 : readUInt16 (a ++ b) (a.length + k + 2) = some seglen := by
                rw [eadd 2, readUInt16_append]; exact hlen
              rw [scanFrom_lengthSkip hm2 hskip hlen2,
                scanFrom_lengthSkip hm hskip hlen]
              have e : a.length + k + 2 + seglen = a.length + (k + 2 + seglen) := by
                omega
              rw [e]
              exact ih (k + 2 + seglen) (by omega)
          · by_cases hzp : isZeroPayload m
            · rw [scanFrom_zeroPayload hm2 hzp, scanFrom_zeroPayload hm hzp,
                eadd 2]
              exact ih (k + 2) (by omega)
            · cases hb2 : readByteAt b (k + 3) with
              | none =>
                have hb2x : readByteAt (a ++ b) (a.length + k + 3) = none := by
                  rw [eadd 3, readByteAt_append]; exact hb2
                rw [scanFrom_default_truncated hm2 hsof hskip hzp hb2x,
                  scanFrom_default_truncated hm hsof hskip hzp hb2]
              | some b2 =>
                have h3 : k + 3 < b.length := by
                  by_contra hc
                  simp [readByteAt, Nat.not_lt.mp hc] at hb2
                  omega
                have hb1 : readByteAt b (k + 2) = some (b.getD (k + 2) 0) := by
                  simp [readByteAt]; omega
                have hb1x : readByteAt (a ++ b) (a.length + k + 2) =
                    some (b.getD (k + 2) 0) := by
                  rw [eadd 2, readByteAt_append]; exact hb1
                have hb2x : readByteAt (a ++ b) (a.length + k + 3) = some b2 := by
                  rw [eadd 3, readByteAt_append]; exact hb2
                rw [scanFrom_default hm2 hsof hskip hzp hb1x hb2x,
                  scanFrom_default hm hsof hskip hzp hb1 hb2]
                by_cases hc : b.getD (k + 2) 0 = 0xff ∧ 2 < b2 ∧ b2 ≤ 0xbf
                · rw [if_pos hc, if_pos hc, eadd 4]
                  exact ih (k + 4) (by omega)
                · rw [if_neg hc, if_neg hc]
    · rw [scanFrom_exhausted (a ++ b) _ (by rw [List.length_append]; omega),
        scanFrom_exhausted b k (by omega)]

/-- Prefix-independence of the scan, packaged for use. -/
lemma scanFrom_shift (a b : List Nat) (k : Nat) :
    scanFrom (a ++ b) (a.length + k) = scanFrom b k :=
  scanFrom_append a b b.length k (by omega)

/-! ### Cursor-motion traces

`scanPositions` records every value `ms->Position` takes during the
scan: the position on loop entry, after each 16-bit or 1-byte read
(+2 / +1), and after each `Seek`.  A read that throws
`EndOfStreamException` ends the trace at the position from which it
was attempted.  `loopPositions` keeps only the positions at which the
`while` condition is evaluated. -/

def scanPositions (data : List Nat) (pos : Nat) : List Nat :=
  if _hlt : pos < data.length then
    match readUInt16 data pos with
    | none => [pos]
    | some marker =>
      if isSOF marker then
        -- marker read (+2), Seek(2), ReadByte when it is in range
        if pos + 4 < data.length then [pos, pos + 2, pos + 4, pos + 5]
        else [pos, pos + 2, pos + 4]
      else if isLengthSkip marker then
        match readUInt16 data (pos + 2) with
        | none => [pos, pos + 2]
        | some seglen =>
          -- marker read (+2), length read (+2), Seek(seglen - 2)
          [pos, pos + 2, pos + 4] ++ scanPositions data (pos + 2 + seglen)
      else if isZeroPayload marker then
        [pos] ++ scanPositions data (pos + 2)
      else
        match readByteAt data (pos + 2) with
        | none => [pos, pos + 2]
        | some b1 =>
          match readByteAt data (pos + 3) with
          | none => [pos, pos + 2, pos + 3]
          | some b2 =>
            if b1 = 0xff ∧ 2 < b2 ∧ b2 ≤ 0xbf then
              [pos, pos + 2, pos + 3] ++ scanPositions data (pos + 4)
            else [pos, pos + 2, pos + 3, pos + 4]
  else [pos]
termination_by data.length - pos
decreasing_by all_goals omega

def loopPositions (data : List Nat) (pos : Nat) : List Nat :=
  if _hlt : pos < data.length then
    match readUInt16 data pos with
    | none => [pos]
    | some marker =>
      if isSOF marker then [pos]
      else if isLengthSkip marker then
        match readUInt16 data (pos + 2) with
        | none => [pos]
        | some seglen => pos :: loopPositions data (pos + 2 + seglen)
      else if isZeroPayload marker then
        pos :: loopPositions data (pos + 2)
      else
        match readByteAt data (pos + 2), readByteAt data (pos + 3) with
        | some b1, some b2 =>
          if b1 = 0xff ∧ 2 < b2 ∧ b2 ≤ 0xbf then
            pos :: loopPositions data (pos + 4)
          else [pos]
        | _, _ => [pos]
  else [pos]
termination_by data.length - pos
decreasing_by all_goals omega

lemma loopPositions_head (data : List Nat) (pos : Nat) :
    (loopPositions data pos).head? = some pos := by
  rw [loopPositions]
  repeat' split
  all_goals simp

/-- Every loop iteration either ends the scan at the entry position or
re-enters the loop at a position at least two bytes further on. -/
lemma loopPositions_shape (data : List Nat) (pos : Nat) :
    loopPositions data pos = [pos] ∨
      (pos + 1 < data.length ∧ ∃ p', pos + 2 ≤ p' ∧
        loopPositions data pos = pos :: loopPositions data p') := by
  rw [loopPositions]
  split
  · split
    · exact Or.inl rfl
    · rename_i marker heq
      have h2 := readUInt16_pos_lt heq
      split
      · exact Or.inl rfl
      · split
        · split
          · exact Or.inl rfl
          · rename_i seglen _
            exact Or.inr ⟨h2, pos + 2 + seglen, by omega, rfl⟩
        · split
          · exact Or.inr ⟨h2, pos + 2, by omega, rfl⟩
          · split
            · split
              · exact Or.inr ⟨h2, pos + 4, by omega, rfl⟩
              · exact Or.inl rfl
            · exact Or.inl rfl
  · exact Or.inl rfl

/-- The loop-entry positions strictly increase: each iteration starts
at least two bytes past the previous one.  Stated with an explicit
bound for the induction. -/
lemma loopPositions_chain_aux (data : List Nat) :
    ∀ n pos, data.length - pos ≤ n →
      List.Chain' (· < ·) (loopPositions data pos) := by
  intro n
  induction n with
  | zero =>
    intro pos h
    rcases loopPositions_shape data pos with h1 | ⟨h2, _, _, _⟩
    · rw [h1]; simp
    · omega
  | succ n ih =>
    intro pos h
    rcases loopPositions_shape data pos with h1 | ⟨h2, p', hp', h1⟩
    · rw [h1]; simp
    · rw [h1, List.chain'_cons']
      refine ⟨?_, ih p' (by omega)⟩
      intro y hy
      rw [loopPositions_head] at hy
      simp at hy
      omega

/-- The loop runs at most `(data.length - pos) / 2 + 1` iterations:
each one consumes at least the two marker bytes. -/
lemma loopPositions_length_aux (data : List Nat) :
    ∀ n pos, data.length - pos ≤ n →
      2 * (loopPositions data pos).length ≤ data.length - pos + 2 := by
  intro n
  induction n with
  | zero =>
    intro pos h
    rcases loopPositions_shape data pos with h1 | ⟨hlt, _, _, _⟩
    · rw [h1]; simp
    · omega
  | succ n ih =>
    intro pos h
    rcases loopPositions_shape data pos with h1 | ⟨h2, p', hp', h1⟩
    · rw [h1]; simp
    · rw [h1]
      have := ih p' (by omega)
      simp only [List.length_cons]
      omega

/-- One loop iteration, seen from the result side: the scan either
fails, returns the byte four past an SOF marker at the current
position, or re-enters the loop at least two bytes further on. -/
lemma scanFrom_cases (data : List Nat) (pos : Nat) :
    (∃ e, scanFrom data pos = .error e) ∨
      (pos + 4 < data.length ∧
        isSOF (data.getD pos 0 * 256 + data.getD (pos + 1) 0) ∧
        scanFrom data pos = .ok (data.getD (pos + 4) 0)) ∨
      (pos < data.length ∧ ∃ p', pos + 2 ≤ p' ∧
        scanFrom data pos = scanFrom data p') := by
  by_cases hlt : pos < data.length
  · cases hm : readUInt16 data pos with
    | none => exact Or.inl ⟨_, scanFrom_marker_truncated hlt hm⟩
    | some m =>
      have hmv : m = data.getD pos 0 * 256 + data.getD (pos + 1) 0 := by
        rw [readUInt16] at hm
        split at hm
        · exact (Option.some_inj.mp hm).symm
        · cases hm
      by_cases hsof : isSOF m
      · by_cases h4 : pos + 4 < data.length
        · exact Or.inr (Or.inl ⟨h4, hmv ▸ hsof, scanFrom_sof hm hsof h4⟩)
        · exact Or.inl ⟨_, scanFrom_sof_truncated hm hsof (by omega)⟩
      · by_cases hskip : isLengthSkip m
        · cases hlen : readUInt16 data (pos + 2) with
          | none => exact Or.inl ⟨_, scanFrom_lengthSkip_truncated hm hskip hlen⟩
          | some seglen =>
            exact Or.inr (Or.inr ⟨hlt, pos + 2 + seglen, by omega,
              scanFrom_lengthSkip hm hskip hlen⟩)
        · by_cases hzp : isZeroPayload m
          · exact Or.inr (Or.inr ⟨hlt, pos + 2, by omega,
              scanFrom_zeroPayload hm hzp⟩)
          · cases hb2 : readByteAt data (pos + 3) with
            | none =>
              exact Or.inl ⟨_, scanFrom_default_truncated hm hsof hskip hzp hb2⟩
            | some b2 =>
              have h3 : pos + 3 < data.length := by
                by_contra hc
                simp [readByteAt, Nat.not_lt.mp hc] at hb2
                omega
              have hb1 : readByteAt data (pos + 2) = some (data.getD (pos + 2) 0) := by
                simp [readByteAt]; omega
              have hd := scanFrom_default hm hsof hskip hzp hb1 hb2
              by_cases hc : data.getD (pos + 2) 0 = 0xff ∧ 2 < b2 ∧ b2 ≤ 0xbf
              · rw [if_pos hc] at hd
                exact Or.inr (Or.inr ⟨hlt, pos + 4, by omega, hd⟩)
              · rw [if_neg hc] at hd
                exact Or.inl ⟨_, hd⟩
  · exact Or.inl ⟨_, scanFrom_exhausted data pos (by omega)⟩

/-- A successful scan result always is the precision byte of an SOF
segment: some position `q` at or after the start holds an SOF marker
and the returned value is the byte at `q + 4`. -/
lemma scanFrom_ok_sof_aux (data : List Nat) :
    ∀ n pos d, data.length - pos ≤ n → scanFrom data pos = .ok d →
      ∃ q, pos ≤ q ∧ q + 4 < data.length ∧
        isSOF (data.getD q 0 * 256 + data.getD (q + 1) 0) ∧
        data.getD (q + 4) 0 = d := by
  intro n
  induction n with
  | zero =>
    intro pos d h hok
    rw [scanFrom_exhausted data pos (by omega)] at hok
    cases hok
  | succ n ih =>
    intro pos d h hok
    rcases scanFrom_cases data pos with ⟨e, he⟩ | ⟨h4, hsof, hval⟩ |
        ⟨hlt, p', hp', hrec⟩
    · rw [he] at hok; cases hok
    · rw [hval] at hok
      exact ⟨pos, Nat.le_refl pos, h4, hsof, Option.some_inj.mp (by
        simpa using hok)⟩
    · rw [hrec] at hok
      obtain ⟨q, hq1, hq2, hq3, hq4⟩ := ih p' d (by omega) hok
      exact ⟨q, by omega, hq2, hq3, hq4⟩

/-! ### Cursor-threading form of the scan, for the two-run property

`scanBuffer` runs the same loop while explicitly threading the byte
buffer through every read and seek, returning it alongside the result
the way the `MemoryStream` still holds its buffer after the scan.  No
branch ever writes to the buffer. -/

def scanBuffer (data : List Nat) (pos : Nat) : Except ScanError Nat × List Nat :=
  if _hlt : pos < data.length then
    match readUInt16 data pos with
    | none => (.error .truncated, data)
    | some marker =>
      if isSOF marker then
        match readByteAt data (pos + 4) with
        | none => (.error .truncated, data)
        | some b => (.ok b, data)
      else if isLengthSkip marker then
        match readUInt16 data (pos + 2) with
        | none => (.error .truncated, data)
        | some seglen => scanBuffer data (pos + 2 + seglen)
      else if isZeroPayload marker then
        scanBuffer data (pos + 2)
      else
        match readByteAt data (pos + 2), readByteAt data (pos + 3) with
        | some b1, some b2 =>
          if b1 = 0xff ∧ 2 < b2 ∧ b2 ≤ 0xbf then scanBuffer data (pos + 4)
          else (.error .badMarker, data)
        | _, _ => (.error .truncated, data)
  else (.error .sofNotFound, data)
termination_by data.length - pos
decreasing_by all_goals omega

lemma scanBuffer_shape (data : List Nat) (pos : Nat) :
    scanBuffer data pos = ((scanBuffer data pos).1, data) ∨
      (pos < data.length ∧ ∃ p', pos + 2 ≤ p' ∧
        scanBuffer data pos = scanBuffer data p') := by
  rw [scanBuffer]
  split
  · rename_i hlt
    split
    · exact Or.inl rfl
    · split
      · split
        · exact Or.inl rfl
        · exact Or.inl rfl
      · split
        · split
          · exact Or.inl rfl
          · rename_i seglen _
            exact Or.inr ⟨hlt, pos + 2 + seglen, by omega, rfl⟩
        · split
          · exact Or.inr ⟨hlt, pos + 2, by omega, rfl⟩
          · split
            · split
              · exact Or.inr ⟨hlt, pos + 4, by omega, rfl⟩
              · exact Or.inl rfl
            · exact Or.inl rfl
  · exact Or.inl rfl

/-- The scan never mutates the byte buffer. -/
lemma scanBuffer_data_aux (data : List Nat) :
    ∀ n pos, data.length - pos ≤ n → (scanBuffer data pos).2 = data := by
  intro n
  induction n with
  | zero =>
    intro pos h
    rcases scanBuffer_shape data pos with h1 | ⟨hlt, _, _, _⟩
    · rw [h1]
    · omega
  | succ n ih =>
    intro pos h
    rcases scanBuffer_shape data pos with h1 | ⟨hlt, p', hp', h1⟩
    · rw [h1]
    · rw [h1]
      exact ih p' (by omega)

lemma scanBuffer_data (data : List Nat) (pos : Nat) :
    (scanBuffer data pos).2 = data :=
  scanBuffer_data_aux data (data.length - pos) pos (Nat.le_refl _)

/-- The cursor-threading form computes the same result as the plain
scan: the two are the same loop. -/
lemma scanBuffer_fst_aux (data : List Nat) :
    ∀ n pos, data.length - pos ≤ n →
      (scanBuffer data pos).1 = scanFrom data pos := by
  intro n
  induction n with
  | zero =>
    intro pos h
    have hlt : ¬ pos < data.length := by omega
    rw [scanBuffer, scanFrom]
    simp [hlt]
  | succ n ih =>
    intro pos h
    by_cases hlt : pos < data.length
    · rw [scanBuffer, scanFrom]
      simp only [dif_pos hlt]
      cases hm : readUInt16 data pos with
      | none => simp
      | some m =>
        simp only
        by_cases hsof : isSOF m
        · simp only [if_pos hsof]
          cases hb : readByteAt data (pos + 4) <;> simp
        · simp only [if_neg hsof]
          by_cases hskip : isLengthSkip m
          · simp only [if_pos hskip]
            cases hlen : readUInt16 data (pos + 2) with
            | none => simp
            | some seglen => simpa using ih (pos + 2 + seglen) (by omega)
          · simp only [if_neg hskip]
            by_cases hzp : isZeroPayload m
            · simp only [if_pos hzp]
              exact ih (pos + 2) (by omega)
            · simp only [if_neg hzp]
              cases hb1 : readByteAt data (pos + 2) with
              | none => simp
              | some b1 =>
                cases hb2 : readByteAt data (pos + 3) with
                | none => simp
                | some b2 =>
                  by_cases hc : b1 = 0xff ∧ 2 < b2 ∧ b2 ≤ 0xbf
                  · simp only [if_pos hc]
                    simpa using ih (pos + 4) (by omega)
                  · simp only [if_neg hc]
    · rw [scanBuffer, scanFrom]
      simp [hlt]

lemma scanBuffer_fst (data : List Nat) (pos : Nat) :
    (scanBuffer data pos).1 = scanFrom data pos :=
  scanBuffer_fst_aux data (data.length - pos) pos (Nat.le_refl _)

/-- A cursor sitting on an SOF_0 header: the marker `0xffc0`, two
frame-length bytes, then the precision byte, which is returned. -/
lemma scan_sof0_cons (x y P : Nat) (rest : List Nat) :
    scanFrom (0xff :: 0xc0 :: x :: y :: P :: rest) 0 = .ok P := by
  have hm : readUInt16 (0xff :: 0xc0 :: x :: y :: P :: rest) 0 =
      some 0xffc0 := by
    unfold readUInt16
    rw [if_pos (by simp only [List.length_cons]; omega)]
    norm_num
  have h := scanFrom_sof hm (by decide)
    (by simp only [List.length_cons]; omega)
  simpa using h

/-! ### The claims -/

/-- C1: whenever the next 16-bit big-endian marker read yields a value
in the SOF enumerated set, the scanner skips the 2-byte frame-header
length field, reads 1 byte, and immediately returns it as the bit
depth; in particular a stream beginning `0xff 0xc0`, a 2-byte frame
length, and a precision byte `P` makes the scan return exactly `P`. -/
theorem sof_marker_yields_precision :
    (∀ (data : List Nat) (pos m : Nat), readUInt16 data pos = some m →
        isSOF m → pos + 4 < data.length →
        scanFrom data pos = Except.ok (data.getD (pos + 4) 0)) ∧
      (∀ (x y P : Nat) (rest : List Nat),
        ScanJpegForBitDepthInternal (0xff :: 0xc0 :: x :: y :: P :: rest) =
          Except.ok P) :=
  ⟨fun _ _ _ hm hsof h4 => scanFrom_sof hm hsof h4,
   fun x y P rest => scan_sof0_cons x y P rest⟩

/-- C1 witness: the first conjunct applied to a concrete SOF_1
stream. -/
theorem sof_marker_yields_precision_witness :
    scanFrom [0xff, 0xc1, 0, 3, 11] 0 = Except.ok 11 := by
  have h := sof_marker_yields_precision.1 [0xff, 0xc1, 0, 3, 11] 0 0xffc1
    (by decide) (by decide) (by decide)
  simpa using h

/-- C2: the resolver returns the internal scanner's bit depth when it
succeeds, never invoking the fallback; on any scanner failure it
invokes the fallback exactly once on the original pixel data and
returns its result unchanged — so a fallback failure propagates to
the caller unmodified. -/
theorem resolver_fallback_dispatch :
    ∀ (fallback : List Nat → Except ScanError Nat) (data : List Nat),
      (∀ d, ScanJpegForBitDepthInternal data = Except.ok d →
        ScanHeaderForBitDepth fallback data = Except.ok d ∧
          fallbackInvocations data = 0) ∧
      (∀ e, ScanJpegForBitDepthInternal data = Except.error e →
        ScanHeaderForBitDepth fallback data = fallback data ∧
          fallbackInvocations data = 1) := by
  intro fallback data
  constructor
  · intro d hd
    simp [ScanHeaderForBitDepth, fallbackInvocations, hd]
  · intro e he
    simp [ScanHeaderForBitDepth, fallbackInvocations, he]

/-- C2 witness: on a stream with no SOF the fallback's value is
returned and counted once; a failing fallback's error is the final
result. -/
theorem resolver_fallback_dispatch_witness :
    ScanHeaderForBitDepth (fun _ => Except.ok 16) [0xff, 0xd8, 0xff, 0xd9] =
        Except.ok 16 ∧
      fallbackInvocations [0xff, 0xd8, 0xff, 0xd9] = 1 ∧
      ScanHeaderForBitDepth (fun _ => Except.error ScanError.badMarker)
          [0xff, 0xd8, 0xff, 0xd9] =
        Except.error ScanError.badMarker ∧
      ScanHeaderForBitDepth (fun _ => Except.error ScanError.badMarker)
          [0xff, 0xc0, 0, 3, 7] =
        Except.ok 7 ∧
      fallbackInvocations [0xff, 0xc0, 0, 3, 7] = 0 := by
  have hsc : ScanJpegForBitDepthInternal [0xff, 0xd8, 0xff, 0xd9] =
      Except.error ScanError.sofNotFound := by
    simp [ScanJpegForBitDepthInternal, scanFrom, readUInt16, readByteAt,
      isSOF, isLengthSkip, isZeroPayload]
  have hok : ScanJpegForBitDepthInternal [0xff, 0xc0, 0, 3, 7] =
      Except.ok 7 := by
    simp [ScanJpegForBitDepthInternal, scanFrom, readUInt16, readByteAt,
      isSOF, isLengthSkip, isZeroPayload]
  have h1 := (resolver_fallback_dispatch (fun _ => Except.ok 16)
    [0xff, 0xd8, 0xff, 0xd9]).2 ScanError.sofNotFound hsc
  have h2 := (resolver_fallback_dispatch
    (fun _ => Except.error ScanError.badMarker)
    [0xff, 0xd8, 0xff, 0xd9]).2 ScanError.sofNotFound hsc
  have h3 := (resolver_fallback_dispatch
    (fun _ => Except.error ScanError.badMarker)
    [0xff, 0xc0, 0, 3, 7]).1 7 hok
  exact ⟨h1.1, h1.2, h2.1, h3.1, h3.2⟩

/-- C3: every length-prefixed skip marker with declared segment length
`N` puts the cursor `N - 2` bytes (in signed arithmetic) past the
length field, i.e. at `pos + 2 + N`, before the next marker read; and
an arbitrary-length well-formed COM segment followed by a valid SOF_0
segment still yields the SOF precision byte. -/
theorem length_skip_advance :
    (∀ (data : List Nat) (pos m seglen : Nat),
        readUInt16 data pos = some m → isLengthSkip m →
        readUInt16 data (pos + 2) = some seglen →
        scanFrom data pos = scanFrom data (pos + 2 + seglen) ∧
          ((pos : Int) + 2 + (seglen : Int)) =
            ((pos : Int) + 4) + ((seglen : Int) - 2)) ∧
      (∀ (hi lo x y P : Nat) (body rest : List Nat),
        hi * 256 + lo = body.length + 2 →
        ScanJpegForBitDepthInternal
            ([0xff, 0xfe, hi, lo] ++ body ++ [0xff, 0xc0, x, y, P] ++ rest) =
          Except.ok P) := by
  constructor
  · intro data pos m seglen hm hskip hlen
    exact ⟨scanFrom_lengthSkip hm hskip hlen, by ring⟩
  · intro hi lo x y P body rest hlen
    have hc1 : (0 : Nat) + 1 <
        ([0xff, 0xfe, hi, lo] ++ body ++ [0xff, 0xc0, x, y, P] ++ rest).length := by
      simp only [List.length_append, List.length_cons, List.length_nil]
      omega
    have hm : readUInt16
        ([0xff, 0xfe, hi, lo] ++ body ++ [0xff, 0xc0, x, y, P] ++ rest) 0 =
        some 0xfffe := by
      unfold readUInt16
      rw [if_pos hc1]
      norm_num
    have hc2 : (2 : Nat) + 1 <
        ([0xff, 0xfe, hi, lo] ++ body ++ [0xff, 0xc0, x, y, P] ++ rest).length := by
      simp only [List.length_append, List.length_cons, List.length_nil]
      omega
    have hl : readUInt16
        ([0xff, 0xfe, hi, lo] ++ body ++ [0xff, 0xc0, x, y, P] ++ rest) 2 =
        some (hi * 256 + lo) := by
      unfold readUInt16
      rw [if_pos hc2]
      norm_num
    rw [ScanJpegForBitDepthInternal, scanFrom_lengthSkip hm (by decide) hl,
      hlen]
    have hassoc : [0xff, 0xfe, hi, lo] ++ body ++ [0xff, 0xc0, x, y, P] ++ rest =
        ([0xff, 0xfe, hi, lo] ++ body) ++ ([0xff, 0xc0, x, y, P] ++ rest) := by
      simp
    have hposv : 0 + 2 + (body.length + 2) =
        ([0xff, 0xfe, hi, lo] ++ body).length + 0 := by
      simp only [List.length_append, List.length_cons, List.length_nil]
      omega
    rw [hassoc, hposv, scanFrom_shift]
    exact scan_sof0_cons x y P rest

/-- C3 witness: a DQT-class skip on a concrete stream, and a COM
segment of three body bytes before an SOF_0. -/
theorem length_skip_advance_witness :
    scanFrom [0xff, 0xfe, 0, 4, 9, 9] 0 = scanFrom [0xff, 0xfe, 0, 4, 9, 9] 6 ∧
      ScanJpegForBitDepthInternal
          ([0xff, 0xfe, 0, 5] ++ [1, 2, 3] ++ [0xff, 0xc0, 0, 3, 9] ++ []) =
        Except.ok 9 := by
  constructor
  · have h := (length_skip_advance.1 [0xff, 0xfe, 0, 4, 9, 9] 0 0xfffe 4
      (by decide) (by decide) (by decide)).1
    simpa using h
  · exact length_skip_advance.2 0 5 0 3 9 [1, 2, 3] [] (by decide)

/-- C4: a scan whose loop consumes the stream to its end without an
SOF marker fails with the not-found error; in particular the stream
SOI-then-EOI does. -/
theorem exhausted_stream_not_found :
    (∀ (data : List Nat) (pos : Nat), data.length ≤ pos →
        scanFrom data pos = Except.error ScanError.sofNotFound) ∧
      ScanJpegForBitDepthInternal [0xff, 0xd8, 0xff, 0xd9] =
        Except.error ScanError.sofNotFound := by
  refine ⟨fun data pos h => scanFrom_exhausted data pos h, ?_⟩
  simp [ScanJpegForBitDepthInternal, scanFrom, readUInt16, readByteAt,
    isSOF, isLengthSkip, isZeroPayload]

/-- C4 witness: the loop-exit rule applied at a concrete cursor. -/
theorem exhausted_stream_not_found_witness :
    scanFrom [0xab] 1 = Except.error ScanError.sofNotFound :=
  exhausted_stream_not_found.1 [0xab] 1 (by decide)

/-- C9: on a marker value matching no enumerated case the scanner
reads two further bytes; it continues (at `pos + 4`, four bytes past
the marker's start) precisely when they are `0xff` followed by a byte
in `(0x02, 0xbf]`, throws the JPEG-syntax error otherwise, and a
truncated follow-up read fails too. -/
theorem unknown_marker_checks_next_two_bytes :
    ∀ (data : List Nat) (pos m : Nat), readUInt16 data pos = some m →
      ¬ isSOF m → ¬ isLengthSkip m → ¬ isZeroPayload m →
      (∀ b1 b2, readByteAt data (pos + 2) = some b1 →
        readByteAt data (pos + 3) = some b2 →
        scanFrom data pos =
          if b1 = 0xff ∧ 2 < b2 ∧ b2 ≤ 0xbf then scanFrom data (pos + 4)
          else Except.error ScanError.badMarker) ∧
      (readByteAt data (pos + 3) = none →
        scanFrom data pos = Except.error ScanError.truncated) := by
  intro data pos m hm hsof hskip hzp
  exact ⟨fun b1 b2 hb1 hb2 => scanFrom_default hm hsof hskip hzp hb1 hb2,
    fun hb2 => scanFrom_default_truncated hm hsof hskip hzp hb2⟩

/-- C9 witness: marker `0x0000` followed by the benign pair
`0xff 0x05` re-enters the loop four bytes on; followed by `0x00 0x00`
it fails; truncated after the marker it fails with the read error. -/
theorem unknown_marker_checks_next_two_bytes_witness :
    scanFrom [0, 0, 0xff, 0x05] 0 = scanFrom [0, 0, 0xff, 0x05] 4 ∧
      scanFrom [0, 0, 0, 0] 0 = Except.error ScanError.badMarker ∧
      scanFrom [0, 0, 0] 0 = Except.error ScanError.truncated := by
  refine ⟨?_, ?_, ?_⟩
  · have h := (unknown_marker_checks_next_two_bytes [0, 0, 0xff, 0x05] 0 0
      (by decide) (by decide) (by decide) (by decide)).1 0xff 0x05
      (by decide) (by decide)
    simpa using h
  · have h := (unknown_marker_checks_next_two_bytes [0, 0, 0, 0] 0 0
      (by decide) (by decide) (by decide) (by decide)).1 0 0
      (by decide) (by decide)
    simpa using h
  · exact (unknown_marker_checks_next_two_bytes [0, 0, 0] 0 0
      (by decide) (by decide) (by decide) (by decide)).2 (by decide)

/-- C5 counterexample: the claim that no marker-handling branch ever
moves the cursor backward is false.  A COM segment declaring length 0
makes the length-skip branch seek `0 - 2 = -2` from position 4 back to
position 2: the cursor trace of `ff fe 00 00` is `0, 2, 4, 2, 4`,
which is not monotonically non-decreasing. -/
theorem cursor_monotone_cex :
    ¬ List.Chain' (· ≤ ·) (scanPositions [0xff, 0xfe, 0, 0] 0) := by
  have h : scanPositions [0xff, 0xfe, 0, 0] 0 = [0, 2, 4, 2, 4] := by
    simp [scanPositions, readUInt16, readByteAt, isSOF, isLengthSkip,
      isZeroPayload]
  rw [h]
  simp [List.chain'_cons]

/-- C5 amended: the cursor position at each evaluation of the loop
condition is strictly increasing within a single scan pass; only the
intra-iteration seek of a length-prefixed segment declaring a length
below 2 can move the cursor backward. -/
theorem loop_entry_positions_increase (data : List Nat) (pos : Nat) :
    List.Chain' (· < ·) (loopPositions data pos) :=
  loopPositions_chain_aux data (data.length - pos) pos (Nat.le_refl _)

/-- C6 counterexample: a stream containing the byte pair `0xff 0x05`
followed by a valid SOF_0 segment on which the scan DOES fail: when
`0xff 0x05` is itself read as the marker, the tolerance test is
applied to the two bytes after it (`0xff 0xc0`, whose second byte
exceeds `0xbf`), so the scan throws the JPEG-syntax error instead of
finding the SOF. -/
theorem reserved_pair_before_sof_cex :
    ScanJpegForBitDepthInternal [0xff, 0x05, 0xff, 0xc0, 0, 3, 8] =
      Except.error ScanError.badMarker := by
  simp [ScanJpegForBitDepthInternal, scanFrom, readUInt16, readByteAt,
    isSOF, isLengthSkip, isZeroPayload]

/-- C6 amended: the reserved pair `0xff 0x05` is tolerated when it
occupies the two bytes following an unrecognized marker; a stream
consisting of any unrecognized marker, then `0xff 0x05`, then a valid
SOF_0 segment scans to the SOF precision byte. -/
theorem reserved_pair_after_unknown_marker (m1 m2 x y P : Nat)
    (rest : List Nat) (hsof : ¬ isSOF (m1 * 256 + m2))
    (hskip : ¬ isLengthSkip (m1 * 256 + m2))
    (hzp : ¬ isZeroPayload (m1 * 256 + m2)) :
    ScanJpegForBitDepthInternal
        (m1 :: m2 :: 0xff :: 0x05 :: 0xff :: 0xc0 :: x :: y :: P :: rest) =
      Except.ok P := by
  have hm : readUInt16
      (m1 :: m2 :: 0xff :: 0x05 :: 0xff :: 0xc0 :: x :: y :: P :: rest) 0 =
      some (m1 * 256 + m2) := by
    unfold readUInt16
    rw [if_pos (by simp only [List.length_cons]; omega)]
    simp
  have hb1 : readByteAt
      (m1 :: m2 :: 0xff :: 0x05 :: 0xff :: 0xc0 :: x :: y :: P :: rest) 2 =
      some 0xff := by
    unfold readByteAt
    rw [if_pos (by simp only [List.length_cons]; omega)]
    simp
  have hb2 : readByteAt
      (m1 :: m2 :: 0xff :: 0x05 :: 0xff :: 0xc0 :: x :: y :: P :: rest) 3 =
      some 0x05 := by
    unfold readByteAt
    rw [if_pos (by simp only [List.length_cons]; omega)]
    simp
  have h := scanFrom_default hm hsof hskip hzp hb1 hb2
  rw [if_pos (by decide)] at h
  rw [ScanJpegForBitDepthInternal, h]
  have hL : (m1 :: m2 :: 0xff :: 0x05 :: 0xff :: 0xc0 :: x :: y :: P :: rest) =
      [m1, m2, 0xff, 0x05] ++ (0xff :: 0xc0 :: x :: y :: P :: rest) := by
    simp
  have hp : 0 + 4 = [m1, m2, 0xff, 0x05].length + 0 := by simp
  rw [hL, hp, scanFrom_shift]
  exact scan_sof0_cons x y P rest

/-- C6 amended witness: unrecognized marker `0xff04`, then the
reserved pair, then an SOF_0 with precision 8. -/
theorem reserved_pair_after_unknown_marker_witness :
    ScanJpegForBitDepthInternal
        (0xff :: 0x04 :: 0xff :: 0x05 :: 0xff :: 0xc0 :: 0 :: 3 :: 8 :: []) =
      Except.ok 8 :=
  reserved_pair_after_unknown_marker 0xff 0x04 0 3 8 [] (by decide)
    (by decide) (by decide)

/-- C7 counterexample: a stream on which the scanner reads marker
`0xffa0` and does NOT fail with the syntax error: the two bytes after
the marker are the benign reserved pair `0xff 0x05`, so the loop
continues and returns the following SOF_0's precision. -/
theorem marker_ffa0_tolerated_cex :
    ScanJpegForBitDepthInternal
        [0xff, 0xa0, 0xff, 0x05, 0xff, 0xc0, 0, 3, 8] = Except.ok 8 := by
  simp [ScanJpegForBitDepthInternal, scanFrom, readUInt16, readByteAt,
    isSOF, isLengthSkip, isZeroPayload]

/-- C7 amended: marker `0xffa0` matches no enumerated case, so the
scanner reads the two bytes after it and fails with the JPEG-syntax
error exactly when they are not `0xff` followed by a byte in
`(0x02, 0xbf]`. -/
theorem marker_ffa0_fails_without_reserved_pair (data : List Nat)
    (pos b1 b2 : Nat) (hm : readUInt16 data pos = some 0xffa0)
    (hb1 : readByteAt data (pos + 2) = some b1)
    (hb2 : readByteAt data (pos + 3) = some b2)
    (hbad : ¬ (b1 = 0xff ∧ 2 < b2 ∧ b2 ≤ 0xbf)) :
    scanFrom data pos = Except.error ScanError.badMarker := by
  have h := scanFrom_default hm (by decide) (by decide) (by decide) hb1 hb2
  rwa [if_neg hbad] at h

/-- C7 amended witness: `0xffa0` followed by two zero bytes. -/
theorem marker_ffa0_fails_without_reserved_pair_witness :
    scanFrom [0xff, 0xa0, 0, 0] 0 = Except.error ScanError.badMarker :=
  marker_ffa0_fails_without_reserved_pair [0xff, 0xa0, 0, 0] 0 0 0
    (by decide) (by decide) (by decide) (by decide)

/-- C8: the loop terminates on every finite stream — it runs at most
`(length - pos) / 2 + 1` iterations because every iteration consumes
at least the two marker bytes — and a returned bit depth always comes
from an SOF marker: it is the byte four past some SOF marker position
in the stream, never the product of a non-SOF branch. -/
theorem scan_terminates_with_sof_result :
    (∀ (data : List Nat) (pos : Nat),
        2 * (loopPositions data pos).length ≤ data.length - pos + 2) ∧
      (∀ (data : List Nat) (pos d : Nat),
        scanFrom data pos = Except.ok d →
        ∃ q, pos ≤ q ∧ q + 4 < data.length ∧
          isSOF (data.getD q 0 * 256 + data.getD (q + 1) 0) ∧
          data.getD (q + 4) 0 = d) :=
  ⟨fun data pos =>
    loopPositions_length_aux data (data.length - pos) pos (Nat.le_refl _),
   fun data pos d h =>
    scanFrom_ok_sof_aux data (data.length - pos) pos d (Nat.le_refl _) h⟩

/-- C8 witness: the successful scan of an SOF_3 stream exhibits its
SOF position. -/
theorem scan_terminates_with_sof_result_witness :
    ∃ q, 0 ≤ q ∧ q + 4 < ([0xff, 0xc3, 0, 3, 14] : List Nat).length ∧
      isSOF (([0xff, 0xc3, 0, 3, 14] : List Nat).getD q 0 * 256 +
        ([0xff, 0xc3, 0, 3, 14] : List Nat).getD (q + 1) 0) ∧
      ([0xff, 0xc3, 0, 3, 14] : List Nat).getD (q + 4) 0 = 14 :=
  scan_terminates_with_sof_result.2 [0xff, 0xc3, 0, 3, 14] 0 14 (by
    simp [scanFrom, readUInt16, readByteAt, isSOF, isLengthSkip,
      isZeroPayload])

/-- C10: the scan is a deterministic, side-effect-free function of the
byte sequence: the cursor-threading run returns the buffer unchanged,
computes the same result as the plain scan, and a second scan with a
fresh cursor over the stream left by the first yields the identical
result. -/
theorem scan_deterministic_two_runs (data : List Nat) :
    (scanBuffer data 0).1 = ScanJpegForBitDepthInternal data ∧
      (scanBuffer data 0).2 = data ∧
      (scanBuffer ((scanBuffer data 0).2) 0).1 = (scanBuffer data 0).1 := by
  refine ⟨scanBuffer_fst data 0, scanBuffer_data data 0, ?_⟩
  rw [scanBuffer_data data 0]

end JpegHelper
